import Mathlib

/-!
Shallow embedding of the `RolloutBuffer` class of
`src/deeprlyb/utils/buffer.py` (repository YannBerthelot/deeprlyb).

Python floats are modelled as exact rationals (`ℚ`); the claims under
study are stated up to exact arithmetic, so `ℚ` is the faithful idealised
semantics.  Python's float division by zero (which produces `nan`/`inf`
together with a numpy warning, or raises `ZeroDivisionError` on plain
floats) is modelled by Lean's total division, where `q / 0 = 0`; every
statement that touches a division records the divisor explicitly, and the
counterexamples that exercise `gamma = 0` are divergences in both
semantics (the code yields `nan`, the model yields `0`, the specification
demands a finite third value).

Numpy arrays and torch tensors are modelled as `List ℚ`.  The raising of
`ValueError` is modelled by `Except String` (for `__init__` and `add`)
and by `Option` (for the static advantage computation and its wrapper);
the error branches mirror the source line by line.
-/

/-- StepRecord store of `RolloutBuffer` (`buffer.py`, lines 7-51): the
column-wise state of the buffer, one list per recorded quantity, plus the
configuration fields fixed at construction and the cursor `len`
(Python's `self.__len__`).  The field `_returns` mirrors Python's
`self._returns`; `advantages` and `_returns` are `Option` because the
source initialises them with `None`. -/
structure RolloutBuffer where
  setting : String
  n_steps : ℕ
  buffer_size : ℕ
  gamma : ℚ
  rewards : List ℚ
  dones : List ℚ
  KL_divergences : List ℚ
  values : List ℚ
  log_probs : List ℚ
  entropies : List ℚ
  advantages : Option (List ℚ)
  _returns : Option (List ℚ)
  len : ℕ
  deriving DecidableEq

namespace RolloutBuffer

/-- Embeds the static method `compute_n_step_return` (lines 86-92): a
backward fold `n_step_return = reward + gamma * n_step_return` over the
reversed reward list, starting from `0`. -/
def compute_n_step_return (rewards : List ℚ) (gamma : ℚ) : ℚ :=
  rewards.reverse.foldl (fun n_step_return reward => reward + gamma * n_step_return) 0

/-- Loop body of `compute_MC_returns` (lines 97-101): the pair carries the
`MC_returns` list built so far (in traversal order) and the running
`cum_return`. -/
def MC_step (gamma : ℚ) (acc : List ℚ × ℚ) (reward : ℚ) : List ℚ × ℚ :=
  (acc.1 ++ [reward + gamma * acc.2], reward + gamma * acc.2)

/-- Embeds the static method `compute_MC_returns` (lines 94-103): traverse
the rewards backwards accumulating `cum_return = reward + gamma * cum_return`,
collect every `cum_return`, and reverse the collected list at the end
(Python's `MC_returns[::-1]`). -/
def compute_MC_returns (rewards : List ℚ) (gamma : ℚ) : List ℚ :=
  (rewards.reverse.foldl (MC_step gamma) (([] : List ℚ), (0 : ℚ))).1.reverse

/-- Embeds the static method `compute_next_return` (lines 105-109):
`((last_return - R_0) / gamma) + ((gamma ** n_steps) * R_N)`.  Note the
bare division by `gamma`. -/
def compute_next_return (last_return R_0 R_N gamma : ℚ) (n_steps : ℕ) : ℚ :=
  (last_return - R_0) / gamma + gamma ^ n_steps * R_N

/-- Embeds the static method `compute_all_n_step_returns` (lines 111-122):
for each start index `j < buffer_size` take the window
`rewards[j : min(j + n_steps, len(rewards))]` (drop `j` then take
`n_steps`, which clamps exactly like Python's `min`) and sum it with
`compute_n_step_return`. -/
def compute_all_n_step_returns (rewards : List ℚ) (gamma : ℚ)
    (buffer_size n_steps : ℕ) : List ℚ :=
  (List.range buffer_size).map fun j =>
    compute_n_step_return ((rewards.drop j).take n_steps) gamma

/-- Embeds the static method `compute_returns` (lines 124-144): seed the
list with `G_0 = compute_n_step_return(rewards[0 : n_steps], gamma)`, then
for `i in range(buffer_size - 1)` append
`compute_next_return(returns[i], rewards[i], rewards[i + n_steps], gamma, n_steps - 1)`.
Python's in-range indexing `returns[i]` / `rewards[i]` is rendered with
`List.getD _ 0`; every use in the theorems below is within bounds. -/
def compute_returns (rewards : List ℚ) (gamma : ℚ) (buffer_size n_steps : ℕ) : List ℚ :=
  (List.range (buffer_size - 1)).foldl
    (fun returns i =>
      returns ++ [compute_next_return (returns.getD i 0) (rewards.getD i 0)
        (rewards.getD (i + n_steps) 0) gamma (n_steps - 1)])
    [compute_n_step_return (rewards.take n_steps) gamma]

/-- Embeds the static method `compute_advantages` (lines 146-167):
`next_values = append(values[n_steps:], last_val)`; if `n_steps > 0` the
result is the comprehension over `range(len(values) - n_steps + 1)`,
otherwise the source raises `ValueError` (modelled by `none`). -/
def compute_advantages (returns_list values dones : List ℚ)
    (gamma last_val : ℚ) (n_steps : ℕ) : Option (List ℚ) :=
  let next_values := values.drop n_steps ++ [last_val]
  if 0 < n_steps then
    some ((List.range (values.length - n_steps + 1)).map fun i =>
      returns_list.getD i 0 + (1 - dones.getD i 0) * gamma ^ n_steps * next_values.getD i 0
        - values.getD i 0)
  else none

/-- Embeds the static method `compute_MC_advantages` (lines 169-174):
`torch.sub(torch.tensor(returns), values)`, the elementwise difference
(all verified uses have equal lengths, where `zipWith` agrees with
torch). -/
def compute_MC_advantages (returns_list values : List ℚ) : List ℚ :=
  List.zipWith (fun r v => r - v) returns_list values

/-- Embeds the property `done` (lines 30-32): `max(self.dones) == 1`.
On an empty column Python's `max` raises; no verified state has an empty
`dones` column, and the model returns `false` there
(`maximum [] = ⊥ ≠ 1`). -/
def done (buf : RolloutBuffer) : Bool :=
  decide (buf.dones.maximum = (1 : WithBot ℚ))

/-- Embeds the property `full` (lines 34-39):
`(len >= buffer_size + n_steps - 1) or done`. -/
def full (buf : RolloutBuffer) : Bool :=
  if buf.buffer_size + buf.n_steps - 1 ≤ buf.len ∨ done buf = true then true else false

/-- Embeds `reset` (lines 41-51): every column becomes a zero array of
length `buffer_size + n_steps - 1`, `advantages` and `_returns` become
`None`, and the cursor returns to `0`. -/
def reset (buf : RolloutBuffer) : RolloutBuffer :=
  { buf with
    rewards := List.replicate (buf.buffer_size + buf.n_steps - 1) 0
    dones := List.replicate (buf.buffer_size + buf.n_steps - 1) 0
    KL_divergences := List.replicate (buf.buffer_size + buf.n_steps - 1) 0
    values := List.replicate (buf.buffer_size + buf.n_steps - 1) 0
    log_probs := List.replicate (buf.buffer_size + buf.n_steps - 1) 0
    entropies := List.replicate (buf.buffer_size + buf.n_steps - 1) 0
    advantages := none
    _returns := none
    len := 0 }

/-- Embeds `__init__` (lines 7-20): the three validation checks in source
order, each raising `ValueError` with the quoted message, then `reset`.
The placeholder columns of the record are irrelevant: `reset` overwrites
every one of them, exactly as in the source where `__init__` creates no
column before calling `self.reset()`. -/
def init (buffer_size : ℕ) (gamma : ℚ) (n_steps : ℕ) (setting : String) :
    Except String RolloutBuffer :=
  if buffer_size < 1 then Except.error "Buffer size must be positive"
  else if ¬ (0 ≤ gamma ∧ gamma ≤ 1) then Except.error "Gamma must be between 0 and 1"
  else if n_steps < 1 then Except.error "Number of steps must be positive"
  else Except.ok (reset
    { setting := setting, n_steps := n_steps, buffer_size := buffer_size, gamma := gamma
      rewards := [], dones := [], KL_divergences := [], values := [], log_probs := []
      entropies := [], advantages := none, _returns := none, len := 0 })

/-- Embeds `clean` (lines 53-65): keep `old_rewards = rewards[-n_steps + 1:]`
(for `n_steps = 1` the Python index `-0` makes this the whole array), make
every column a fresh zero array of length `buffer_size + n_steps - 1`,
write `old_rewards` into `rewards[: n_steps - 1]`, and set the cursor to
`n_steps - 1`.  The numpy slice assignment broadcasts only when
`old_rewards` has length `n_steps - 1`; otherwise it raises, modelled by
`none`. -/
def clean (buf : RolloutBuffer) : Option RolloutBuffer :=
  let old_rewards :=
    if buf.n_steps = 1 then buf.rewards
    else buf.rewards.drop (buf.rewards.length - (buf.n_steps - 1))
  if old_rewards.length = buf.n_steps - 1 then
    some { buf with
      rewards := old_rewards ++
        List.replicate (buf.buffer_size + buf.n_steps - 1 - (buf.n_steps - 1)) 0
      dones := List.replicate (buf.buffer_size + buf.n_steps - 1) 0
      KL_divergences := List.replicate (buf.buffer_size + buf.n_steps - 1) 0
      values := List.replicate (buf.buffer_size + buf.n_steps - 1) 0
      log_probs := List.replicate (buf.buffer_size + buf.n_steps - 1) 0
      entropies := List.replicate (buf.buffer_size + buf.n_steps - 1) 0
      advantages := none
      _returns := none
      len := buf.n_steps - 1 }
  else none

/-- Embeds `add` (lines 67-84): raise
`"Buffer is already full, cannot add anymore"` when `full` holds,
otherwise write the six scalars at index `len` (numpy stores the `done`
boolean as `1.0`/`0.0`) and advance the cursor. -/
def add (buf : RolloutBuffer) (reward : ℚ) (done_val : Bool)
    (value log_prob entropy KL_divergence : ℚ) : Except String RolloutBuffer :=
  if full buf = true then
    Except.error "Buffer is already full, cannot add anymore"
  else
    Except.ok { buf with
      dones := buf.dones.set buf.len (if done_val then 1 else 0)
      values := buf.values.set buf.len value
      log_probs := buf.log_probs.set buf.len log_prob
      entropies := buf.entropies.set buf.len entropy
      KL_divergences := buf.KL_divergences.set buf.len KL_divergence
      rewards := buf.rewards.set buf.len reward
      len := buf.len + 1 }

/-- Embeds `update_advantages` (lines 176-222): select the return
algorithm (`n_steps > 2 and fast` first, then `MC`, then the direct sum),
store it in `_returns`, then in MC mode subtract values elementwise and
truncate both `advantages` and `log_probs` to the cursor, and in n-step
mode call `compute_advantages` (whose `ValueError` propagates as
`none`). -/
def update_advantages (buf : RolloutBuffer) (last_val : ℚ) (fast MC : Bool) :
    Option RolloutBuffer :=
  let rets :=
    if 2 < buf.n_steps ∧ fast = true then
      compute_returns buf.rewards buf.gamma buf.buffer_size buf.n_steps
    else if MC = true then
      compute_MC_returns buf.rewards buf.gamma
    else
      compute_all_n_step_returns buf.rewards buf.gamma buf.buffer_size buf.n_steps
  if MC = true then
    some { buf with
      _returns := some rets
      advantages := some ((compute_MC_advantages rets buf.values).take buf.len)
      log_probs := buf.log_probs.take buf.len }
  else
    match compute_advantages rets buf.values buf.dones buf.gamma last_val buf.n_steps with
    | some advs => some { buf with _returns := some rets, advantages := some advs }
    | none => none

/-- Embeds `clear` (lines 243-250): every column is replaced by its slice
`[buffer_size:]`, i.e. the first `buffer_size` entries are dropped.
Nothing is zeroed, `advantages`, `_returns` and the cursor are left
untouched. -/
def clear (buf : RolloutBuffer) : RolloutBuffer :=
  { buf with
    rewards := buf.rewards.drop buf.buffer_size
    dones := buf.dones.drop buf.buffer_size
    KL_divergences := buf.KL_divergences.drop buf.buffer_size
    values := buf.values.drop buf.buffer_size
    log_probs := buf.log_probs.drop buf.buffer_size
    entropies := buf.entropies.drop buf.buffer_size }

/-- Rewrites the backward fold of `compute_n_step_return` as a forward
`foldr`, the form convenient for structural induction. -/
lemma compute_n_step_return_eq_foldr (l : List ℚ) (g : ℚ) :
    compute_n_step_return l g = l.foldr (fun reward acc => reward + g * acc) 0 :=
  List.foldl_reverse l _ 0

lemma compute_n_step_return_nil (g : ℚ) : compute_n_step_return [] g = 0 := by
  simp [compute_n_step_return_eq_foldr]

lemma compute_n_step_return_cons (r : ℚ) (l : List ℚ) (g : ℚ) :
    compute_n_step_return (r :: l) g = r + g * compute_n_step_return l g := by
  simp [compute_n_step_return_eq_foldr]

/-- Appending one reward at the end of a window adds its maximally
discounted contribution. -/
lemma compute_n_step_return_append_single (l : List ℚ) (x g : ℚ) :
    compute_n_step_return (l ++ [x]) g =
      compute_n_step_return l g + g ^ l.length * x := by
  induction l with
  | nil => simp [compute_n_step_return_nil, compute_n_step_return_cons]
  | cons a t ih =>
      simp only [List.cons_append, compute_n_step_return_cons, ih, List.length_cons]
      ring

/-- Unfolds the fold of `compute_MC_returns` by one (leading) reward:
processing `reward :: rewards` backwards first handles `rewards`, then
appends the final cumulant `reward + gamma * cum`. -/
lemma MC_fold_cons (g r : ℚ) (rs : List ℚ) :
    rs.reverse.foldl (MC_step g) (([] : List ℚ), (0 : ℚ)) = acc →
    (r :: rs).reverse.foldl (MC_step g) (([] : List ℚ), (0 : ℚ)) = MC_step g acc r := by
  intro h
  rw [List.reverse_cons, List.foldl_append, h]
  rfl

lemma compute_MC_returns_nil (g : ℚ) : compute_MC_returns [] g = [] := rfl

lemma compute_MC_returns_cons (g r : ℚ) (rs : List ℚ) :
    compute_MC_returns (r :: rs) g =
      (r + g * (rs.reverse.foldl (MC_step g) (([] : List ℚ), (0 : ℚ))).2)
        :: compute_MC_returns rs g := by
  unfold compute_MC_returns
  rw [MC_fold_cons g r rs rfl]
  simp [MC_step]

/-- Running cumulant of the Monte-Carlo fold is the head of the final
(reversed) return list. -/
lemma MC_fold_snd (g : ℚ) (rs : List ℚ) :
    (rs.reverse.foldl (MC_step g) (([] : List ℚ), (0 : ℚ))).2 =
      (compute_MC_returns rs g).headD 0 := by
  cases rs with
  | nil => rfl
  | cons r t =>
      rw [MC_fold_cons g r t rfl, compute_MC_returns_cons]
      rfl

lemma compute_MC_returns_length (g : ℚ) (rs : List ℚ) :
    (compute_MC_returns rs g).length = rs.length := by
  induction rs with
  | nil => rfl
  | cons r t ih => rw [compute_MC_returns_cons]; simp [ih]

lemma headD_eq_getD (l : List ℚ) (d : ℚ) : l.headD d = l.getD 0 d := by
  cases l <;> rfl

/-- Final Monte-Carlo return is the final reward alone. -/
lemma compute_MC_returns_getD_last (g : ℚ) (rs : List ℚ) (h : 1 ≤ rs.length) :
    (compute_MC_returns rs g).getD (rs.length - 1) 0 = rs.getD (rs.length - 1) 0 := by
  induction rs with
  | nil => simp at h
  | cons r t ih =>
      rw [compute_MC_returns_cons]
      cases t with
      | nil => simp [MC_step]
      | cons b u =>
          have ht : 1 ≤ (b :: u).length := by simp
          have hlen : (r :: b :: u).length - 1 = ((b :: u).length - 1) + 1 := by
            simp
          rw [hlen, List.getD_cons_succ, List.getD_cons_succ]
          exact ih ht

/-- Monte-Carlo returns satisfy the backward recurrence
`G[i] = rewards[i] + gamma * G[i + 1]`. -/
lemma compute_MC_returns_getD_rec (g : ℚ) (rs : List ℚ) :
    ∀ i, i + 1 < rs.length →
      (compute_MC_returns rs g).getD i 0 =
        rs.getD i 0 + g * (compute_MC_returns rs g).getD (i + 1) 0 := by
  induction rs with
  | nil => intro i hi; simp at hi
  | cons r t ih =>
      intro i hi
      rw [compute_MC_returns_cons]
      cases i with
      | zero =>
          rw [List.getD_cons_zero, List.getD_cons_zero, List.getD_cons_succ,
            MC_fold_snd, headD_eq_getD]
      | succ j =>
          rw [List.getD_cons_succ, List.getD_cons_succ, List.getD_cons_succ]
          exact ih j (by simpa using hi)

/-- C7: for every non-empty reward sequence of length `L` and every
`gamma`, `compute_MC_returns` returns a sequence `G` of length `L` with
`G[L-1] = rewards[L-1]` and `G[i] = rewards[i] + gamma * G[i+1]` for every
`i < L-1`. -/
theorem c7_mc_returns_recurrence (rewards : List ℚ) (gamma : ℚ)
    (h : 1 ≤ rewards.length) :
    (compute_MC_returns rewards gamma).length = rewards.length ∧
    (compute_MC_returns rewards gamma).getD (rewards.length - 1) 0 =
      rewards.getD (rewards.length - 1) 0 ∧
    ∀ i, i + 1 < rewards.length →
      (compute_MC_returns rewards gamma).getD i 0 =
        rewards.getD i 0 + gamma * (compute_MC_returns rewards gamma).getD (i + 1) 0 :=
  ⟨compute_MC_returns_length gamma rewards,
   compute_MC_returns_getD_last gamma rewards h,
   compute_MC_returns_getD_rec gamma rewards⟩

/-- C7 witness: the spec's concrete scenario `rewards = [1, 1, 1]`,
`gamma = 1/2`, instantiating the three clauses of the claim. -/
theorem c7_witness :
    (compute_MC_returns [1, 1, 1] (1/2)).length = 3 ∧
    (compute_MC_returns [1, 1, 1] (1/2)).getD 2 0 = 1 ∧
    (compute_MC_returns [1, 1, 1] (1/2)).getD 0 0 =
      1 + (1/2) * (compute_MC_returns [1, 1, 1] (1/2)).getD 1 0 := by
  have h := c7_mc_returns_recurrence [1, 1, 1] (1/2) (by norm_num)
  exact ⟨h.1, h.2.1.trans (by norm_num), h.2.2 0 (by norm_num)⟩

/-- One sliding-window step of the incremental recurrence: applied to the
full n-step window sum starting at `j`, `compute_next_return` (with the
source's arguments `rewards[j]`, `rewards[j + n]`, exponent `n - 1`)
produces the full window sum starting at `j + 1`.  Requires `gamma ≠ 0`
because the source divides by `gamma`. -/
lemma window_step (rewards : List ℚ) (g : ℚ) (n j : ℕ) (hg : g ≠ 0) (hn : 1 ≤ n)
    (hlen : j + n + 1 ≤ rewards.length) :
    compute_next_return
        (compute_n_step_return ((rewards.drop j).take n) g)
        (rewards.getD j 0) (rewards.getD (j + n) 0) g (n - 1) =
      compute_n_step_return ((rewards.drop (j + 1)).take n) g := by
  obtain ⟨m, rfl⟩ : ∃ m, n = m + 1 := ⟨n - 1, by omega⟩
  have hj : j < rewards.length := by omega
  have hjn : j + (m + 1) < rewards.length := by omega
  have e1 : (rewards.drop j).take (m + 1) =
      rewards.getD j 0 :: (rewards.drop (j + 1)).take m := by
    rw [List.drop_eq_getElem_cons hj, List.take_succ_cons,
      List.getD_eq_getElem _ _ hj]
  have e2 : (rewards.drop (j + 1)).take (m + 1) =
      (rewards.drop (j + 1)).take m ++ [rewards.getD (j + (m + 1)) 0] := by
    have hidx : j + 1 + m = j + (m + 1) := by omega
    rw [List.take_succ, List.getElem?_drop, hidx]
    simp [List.getD_eq_getElem _ _ hjn, List.getElem?_eq_getElem hjn]
  have e3 : ((rewards.drop (j + 1)).take m).length = m := by
    rw [List.length_take, List.length_drop]; omega
  rw [e1, e2, compute_n_step_return_cons, compute_n_step_return_append_single, e3]
  unfold compute_next_return
  have e4 : rewards.getD j 0 + g * compute_n_step_return ((rewards.drop (j + 1)).take m) g
      - rewards.getD j 0 = g * compute_n_step_return ((rewards.drop (j + 1)).take m) g := by
    ring
  rw [e4, mul_div_cancel_left₀ _ hg]
  simp

/-- Loop invariant of `compute_returns`: after the first `k` iterations
the accumulated list is exactly the list of full-window direct sums for
the start indices `0 .. k`. -/
lemma compute_returns_foldl_inv (rewards : List ℚ) (g : ℚ) (bs n : ℕ)
    (hg : g ≠ 0) (hn : 1 ≤ n) (hlen : rewards.length = bs + n - 1) :
    ∀ k, k ≤ bs - 1 →
      (List.range k).foldl
        (fun returns i =>
          returns ++ [compute_next_return (returns.getD i 0) (rewards.getD i 0)
            (rewards.getD (i + n) 0) g (n - 1)])
        [compute_n_step_return (rewards.take n) g] =
      (List.range (k + 1)).map
        (fun j => compute_n_step_return ((rewards.drop j).take n) g) := by
  intro k
  induction k with
  | zero =>
      intro _
      simp [List.range_succ]
  | succ k ih =>
      intro hk
      have hk' : k ≤ bs - 1 := by omega
      rw [List.range_succ, List.foldl_append, ih hk']
      simp only [List.foldl_cons, List.foldl_nil]
      have hgetD : ((List.range (k + 1)).map
          (fun j => compute_n_step_return ((rewards.drop j).take n) g)).getD k 0 =
          compute_n_step_return ((rewards.drop k).take n) g := by
        rw [List.getD_eq_getElem _ _ (by simp)]
        simp
      rw [hgetD, window_step rewards g n k hg hn (by omega)]
      rw [List.range_succ (k + 1), List.map_append]
      simp

/-- C1 counterexample: the claim quantifies over every `gamma` in
`[0, 1]`, but at `gamma = 0` the recurrence divides by `gamma`
(`buffer.py` line 109).  With `rewards = [1, 1, 1, 1]`,
`buffer_size = 2`, `n_steps = 3` the direct summation yields `[1, 1]`
while the incremental recurrence yields `[1, 0]` in the model
(`(G_0 - r_0) / 0 = 0` under Lean's total division; numpy produces
`nan` there, and plain Python floats raise `ZeroDivisionError`) — in
every semantics index 1 is off by `1`, far beyond the `1e-9`
tolerance. -/
theorem c1_counterexample :
    (0 : ℚ) ≤ 0 ∧ (0 : ℚ) ≤ 1 ∧ 2 < 3 ∧ ([1, 1, 1, 1] : List ℚ).length = 2 + 3 - 1 ∧
    compute_returns [1, 1, 1, 1] 0 2 3 ≠ compute_all_n_step_returns [1, 1, 1, 1] 0 2 3 ∧
    (compute_all_n_step_returns [1, 1, 1, 1] 0 2 3).getD 1 0 -
      (compute_returns [1, 1, 1, 1] 0 2 3).getD 1 0 = 1 := by
  norm_num [compute_returns, compute_all_n_step_returns, compute_n_step_return,
    compute_next_return, List.range_succ]

/-- C1 amended: for every reward array of length
`buffer_size + n_steps - 1`, every `gamma` in `(0, 1]` (`gamma = 0`
excluded, since the recurrence divides by `gamma`), every
`n_steps > 2` and `buffer_size ≥ 1`, the incremental recurrence
`compute_returns` produces exactly the same sequence of `buffer_size`
returns as the direct summation `compute_all_n_step_returns` (exact
arithmetic, hence within any tolerance). -/
theorem c1_incremental_matches_direct (rewards : List ℚ) (gamma : ℚ)
    (buffer_size n_steps : ℕ)
    (hg0 : 0 < gamma) (_hg1 : gamma ≤ 1) (hn : 2 < n_steps) (hbs : 1 ≤ buffer_size)
    (hlen : rewards.length = buffer_size + n_steps - 1) :
    compute_returns rewards gamma buffer_size n_steps =
      compute_all_n_step_returns rewards gamma buffer_size n_steps := by
  have hg : gamma ≠ 0 := ne_of_gt hg0
  have h := compute_returns_foldl_inv rewards gamma buffer_size n_steps hg (by omega) hlen
    (buffer_size - 1) (le_refl _)
  have hbs1 : buffer_size - 1 + 1 = buffer_size := by omega
  unfold compute_returns compute_all_n_step_returns
  rw [h, hbs1]

/-- C1 witness: a length-6 reward array with `buffer_size = 4`,
`n_steps = 3`, `gamma = 1/2`; both algorithms agree. -/
theorem c1_witness :
    compute_returns [1, 2, 3, 4, 5, 6] (1/2) 4 3 =
      compute_all_n_step_returns [1, 2, 3, 4, 5, 6] (1/2) 4 3 :=
  c1_incremental_matches_direct [1, 2, 3, 4, 5, 6] (1/2) 4 3 (by norm_num) (by norm_num)
    (by norm_num) (by norm_num) (by norm_num)

/-- Concrete buffer whose second `done` flag is set: it is `full` by
episode termination although only 1 of its 2 slots is populated. -/
def doneBuffer : RolloutBuffer :=
  { setting := "MC", n_steps := 1, buffer_size := 2, gamma := 0,
    rewards := [4, 0], dones := [0, 1], KL_divergences := [0, 0],
    values := [0, 0], log_probs := [0, 0], entropies := [0, 0],
    advantages := none, _returns := none, len := 1 }

/-- C10: construction fails with the validation error if and only if
`buffer_size < 1`, `gamma` outside `[0, 1]` or `n_steps < 1`; for every
other parameter set it succeeds with an empty buffer whose six columns all
have capacity `buffer_size + n_steps - 1` and whose cursor is `0`. -/
theorem c10_init_validation (bs : ℕ) (g : ℚ) (n : ℕ) (s : String) :
    ((∃ e, init bs g n s = Except.error e) ↔ (bs < 1 ∨ ¬ (0 ≤ g ∧ g ≤ 1) ∨ n < 1)) ∧
    (¬ (bs < 1 ∨ ¬ (0 ≤ g ∧ g ≤ 1) ∨ n < 1) →
      init bs g n s = Except.ok
        { setting := s, n_steps := n, buffer_size := bs, gamma := g,
          rewards := List.replicate (bs + n - 1) 0,
          dones := List.replicate (bs + n - 1) 0,
          KL_divergences := List.replicate (bs + n - 1) 0,
          values := List.replicate (bs + n - 1) 0,
          log_probs := List.replicate (bs + n - 1) 0,
          entropies := List.replicate (bs + n - 1) 0,
          advantages := none, _returns := none, len := 0 }) := by
  unfold init reset
  by_cases h1 : bs < 1
  · rw [if_pos h1]
    exact ⟨⟨fun _ => Or.inl h1, fun _ => ⟨_, rfl⟩⟩, fun hcon => absurd (Or.inl h1) hcon⟩
  · rw [if_neg h1]
    by_cases h2 : ¬ (0 ≤ g ∧ g ≤ 1)
    · rw [if_pos h2]
      exact ⟨⟨fun _ => Or.inr (Or.inl h2), fun _ => ⟨_, rfl⟩⟩,
        fun hcon => absurd (Or.inr (Or.inl h2)) hcon⟩
    · rw [if_neg h2]
      by_cases h3 : n < 1
      · rw [if_pos h3]
        exact ⟨⟨fun _ => Or.inr (Or.inr h3), fun _ => ⟨_, rfl⟩⟩,
          fun hcon => absurd (Or.inr (Or.inr h3)) hcon⟩
      · rw [if_neg h3]
        refine ⟨⟨fun he => ?_, fun hor => ?_⟩, fun _ => rfl⟩
        · obtain ⟨e, he⟩ := he
          exact Except.noConfusion he
        · rcases hor with h | h | h
          · exact absurd h h1
          · exact absurd h h2
          · exact absurd h h3

/-- C10 witness: `buffer_size = 0` is rejected, and
`buffer_size = 3, gamma = 1/2, n_steps = 2` yields the empty
capacity-4 buffer. -/
theorem c10_witness :
    (∃ e, init 0 (1/2) 3 "MC" = Except.error e) ∧
    init 3 (1/2) 2 "MC" = Except.ok
      { setting := "MC", n_steps := 2, buffer_size := 3, gamma := 1/2,
        rewards := List.replicate 4 0, dones := List.replicate 4 0,
        KL_divergences := List.replicate 4 0, values := List.replicate 4 0,
        log_probs := List.replicate 4 0, entropies := List.replicate 4 0,
        advantages := none, _returns := none, len := 0 } :=
  ⟨(c10_init_validation 0 (1/2) 3 "MC").1.mpr (Or.inl (by norm_num)),
   (c10_init_validation 3 (1/2) 2 "MC").2 (by norm_num)⟩

/-- C9: on any state satisfying the reachability invariants (cursor never
beyond capacity, `done` column holding only the stored booleans `0`/`1`),
the predicate `full` is true exactly when the populated length equals
`buffer_size + n_steps - 1` or some stored done flag is set. -/
theorem c9_full_iff (buf : RolloutBuffer)
    (hlen : buf.len ≤ buf.buffer_size + buf.n_steps - 1)
    (hdones : ∀ x ∈ buf.dones, x = 0 ∨ x = 1) :
    full buf = true ↔
      (buf.len = buf.buffer_size + buf.n_steps - 1 ∨ (1 : ℚ) ∈ buf.dones) := by
  have hfull : full buf = true ↔
      (buf.buffer_size + buf.n_steps - 1 ≤ buf.len ∨
        buf.dones.maximum = (1 : WithBot ℚ)) := by
    unfold full done
    split_ifs with hc
    · simp only [decide_eq_true_eq] at hc
      exact iff_of_true rfl hc
    · simp only [decide_eq_true_eq] at hc
      exact iff_of_false (by simp) hc
  rw [hfull]
  constructor
  · rintro (h | h)
    · exact Or.inl (le_antisymm hlen h)
    · exact Or.inr (List.maximum_mem h)
  · rintro (h | h)
    · exact Or.inl (le_of_eq h.symm)
    · refine Or.inr (List.maximum_eq_coe_iff.mpr ⟨h, ?_⟩)
      intro a ha
      rcases hdones a ha with rfl | rfl
      · norm_num
      · exact le_refl 1

/-- C9 witness: `doneBuffer` has a stored done flag, so it is full even
though its length `1` is below capacity `2`. -/
theorem c9_witness : full doneBuffer = true :=
  (c9_full_iff doneBuffer (by decide) (by decide)).mpr (Or.inr (by decide))

/-- C8: once `full` holds, `add` fails with the `BufferFull` error.  In
this functional embedding the error branch is taken before any field is
written (exactly as in the source, where the `raise` is the first
statement), so no successor state exists and the input buffer is
untouched. -/
theorem c8_add_full_error (buf : RolloutBuffer) (h : full buf = true)
    (reward : ℚ) (done_val : Bool) (value log_prob entropy KL_divergence : ℚ) :
    add buf reward done_val value log_prob entropy KL_divergence =
      Except.error "Buffer is already full, cannot add anymore" := by
  unfold add
  rw [if_pos h]

/-- C8 witness: adding to the full `doneBuffer` errors. -/
theorem c8_witness :
    add doneBuffer 0 false 0 0 0 0 =
      Except.error "Buffer is already full, cannot add anymore" :=
  c8_add_full_error doneBuffer (by decide) 0 false 0 0 0 0

/-- C4 counterexample: the claim asserts that the final `n_steps`
positions of the advantage array bootstrap with `last_val`.  With
`n_steps = 2`, `buffer_size = 3`, `values = [10, 20, 30, 40]`,
`dones = [0, 0, 0]`, `returns = [0, 0, 0]`, `gamma = 1`, `last_val = 99`
the source (line 156: `next_values = values[n_steps:]` plus one appended
`last_val`) gives `[20, 20, 69]`: position `1` — one of the final two —
uses the stored lookahead `values[3] = 40`, not `last_val`, which would
have given `79`.  Only the very last position bootstraps with
`last_val`. -/
theorem c4_counterexample :
    compute_advantages [0, 0, 0] [10, 20, 30, 40] [0, 0, 0] 1 99 2 =
      some [20, 20, 69] ∧
    (0 : ℚ) + (1 - 0) * 1 ^ 2 * 99 - 20 ≠ 20 := by
  norm_num [compute_advantages, List.range_succ]

/-- C4 amended: in n-step mode the advantage array has exactly
`buffer_size` entries and satisfies
`advantage[i] = return[i] + (1 - done[i]) * gamma^n_steps * next_value[i] - value[i]`
with `next_value[i] = value[i + n_steps]` whenever `i + n_steps` is within
the populated range, and only the final position (`i = buffer_size - 1`,
where `i + n_steps` equals the populated length) uses the externally
supplied bootstrap `last_val`. -/
theorem c4_compute_advantages_spec (returns_list values dones : List ℚ)
    (gamma last_val : ℚ) (n_steps buffer_size : ℕ)
    (hn : 1 ≤ n_steps) (hbs : 1 ≤ buffer_size)
    (hv : values.length = buffer_size + n_steps - 1) :
    compute_advantages returns_list values dones gamma last_val n_steps =
      some ((List.range buffer_size).map fun i =>
        returns_list.getD i 0 + (1 - dones.getD i 0) * gamma ^ n_steps *
          (if i + n_steps < values.length then values.getD (i + n_steps) 0 else last_val)
          - values.getD i 0) := by
  unfold compute_advantages
  rw [if_pos (show 0 < n_steps by omega)]
  have hcount : values.length - n_steps + 1 = buffer_size := by omega
  rw [hcount]
  congr 1
  apply List.map_congr_left
  intro i hi
  rw [List.mem_range] at hi
  have hdlen : (values.drop n_steps).length = buffer_size - 1 := by
    rw [List.length_drop]; omega
  by_cases hcase : i + n_steps < values.length
  · have hi' : i < (values.drop n_steps).length := by omega
    rw [List.getD_append _ _ _ _ hi', List.getD_eq_getElem _ _ hi',
      List.getElem_drop,
      ← List.getD_eq_getElem values 0 (show n_steps + i < values.length by omega),
      Nat.add_comm n_steps i, if_pos hcase]
  · have hi' : (values.drop n_steps).length ≤ i := by omega
    rw [List.getD_append_right _ _ _ _ hi', if_neg hcase]
    have : i - (values.drop n_steps).length = 0 := by omega
    rw [this]
    rfl

/-- C4 witness: `returns = [5, 6]`, `values = [10, 20, 30]`,
`dones = [0, 1]`, `gamma = 1/2`, `last_val = 7`, `n_steps = 2`,
`buffer_size = 2`: the advantage array is `[5/2, -14]` — the first entry
uses the stored `values[2] = 30`, the final entry the bootstrap. -/
theorem c4_witness :
    compute_advantages [5, 6] [10, 20, 30] [0, 1] (1/2) 7 2 = some [5/2, -14] :=
  (c4_compute_advantages_spec [5, 6] [10, 20, 30] [0, 1] (1/2) 7 2 2
      (by norm_num) (by norm_num) (by norm_num)).trans
    (by norm_num [List.range_succ])

/-- Concrete buffer with `n_steps = 3` whose owner requests Monte-Carlo
mode while leaving `fast` at its default `True`. -/
def fastMCBuffer : RolloutBuffer :=
  { setting := "MC", n_steps := 3, buffer_size := 1, gamma := 1/2,
    rewards := [1, 1, 1], dones := [0, 0, 0], KL_divergences := [0, 0, 0],
    values := [0, 0, 0], log_probs := [0, 0, 0], entropies := [0, 0, 0],
    advantages := none, _returns := none, len := 3 }

/-- Concrete buffer with `n_steps = 2`, where the Monte-Carlo request is
honoured. -/
def slowMCBuffer : RolloutBuffer :=
  { setting := "MC", n_steps := 2, buffer_size := 2, gamma := 1/2,
    rewards := [1, 1, 1], dones := [0, 0, 0], KL_divergences := [0, 0, 0],
    values := [0, 0, 0], log_probs := [0, 0, 0], entropies := [0, 0, 0],
    advantages := none, _returns := none, len := 3 }

/-- C2 counterexample: the claim says a Monte-Carlo request overrides the
other two algorithms regardless of `n_steps` and `fast`, but the source's
branch order (`buffer.py` line 184: `if (self.n_steps > 2) and fast:`
comes before `elif MC:`) lets the fast incremental path win.  On
`fastMCBuffer` (`n_steps = 3`, `fast = True`, `MC = True`) the stored
returns are the incremental n-step returns `[7/4]`, not the Monte-Carlo
returns `[7/4, 3/2, 1]`. -/
theorem c2_counterexample :
    (update_advantages fastMCBuffer 0 true true).map RolloutBuffer._returns =
      some (some [7/4]) ∧
    some ([7/4] : List ℚ) ≠
      some (compute_MC_returns fastMCBuffer.rewards fastMCBuffer.gamma) := by
  constructor
  · norm_num [update_advantages, fastMCBuffer, compute_returns,
      compute_n_step_return, List.range_succ]
  · norm_num [compute_MC_returns, MC_step, fastMCBuffer]
    simp

/-- C2 amended: a Monte-Carlo request computes the stored returns with
`compute_MC_returns` only when the fast incremental branch does not fire,
i.e. when `n_steps ≤ 2` or `fast` is false; with `n_steps > 2` and
`fast = True` the incremental n-step recurrence takes precedence even in
Monte-Carlo mode. -/
theorem c2_mc_returns_used (buf : RolloutBuffer) (last_val : ℚ) (fast : Bool)
    (h : ¬ (2 < buf.n_steps ∧ fast = true)) :
    update_advantages buf last_val fast true = some { buf with
      _returns := some (compute_MC_returns buf.rewards buf.gamma)
      advantages := some ((compute_MC_advantages
        (compute_MC_returns buf.rewards buf.gamma) buf.values).take buf.len)
      log_probs := buf.log_probs.take buf.len } := by
  simp [update_advantages, h]

/-- C2 witness: on `slowMCBuffer` (`n_steps = 2`) the Monte-Carlo request
is honoured and the stored returns are the Monte-Carlo returns. -/
theorem c2_witness :
    update_advantages slowMCBuffer 0 true true = some { slowMCBuffer with
      _returns := some (compute_MC_returns slowMCBuffer.rewards slowMCBuffer.gamma)
      advantages := some ((compute_MC_advantages
        (compute_MC_returns slowMCBuffer.rewards slowMCBuffer.gamma)
        slowMCBuffer.values).take slowMCBuffer.len)
      log_probs := slowMCBuffer.log_probs.take slowMCBuffer.len } :=
  c2_mc_returns_used slowMCBuffer 0 true (by decide)

/-- Concrete buffer with `gamma = 0` and `n_steps = 3`: the fast
incremental path divides by `gamma`. -/
def zeroGammaBuffer : RolloutBuffer :=
  { setting := "MC", n_steps := 3, buffer_size := 2, gamma := 0,
    rewards := [1, 1, 1, 1], dones := [0, 0, 0, 0], KL_divergences := [0, 0, 0, 0],
    values := [0, 0, 0, 0], log_probs := [0, 0, 0, 0], entropies := [0, 0, 0, 0],
    advantages := none, _returns := none, len := 4 }

/-- Concrete buffer with `gamma = 0` and `n_steps = 2`: the direct
summation path degrades gracefully. -/
def zeroGammaSlowBuffer : RolloutBuffer :=
  { setting := "MC", n_steps := 2, buffer_size := 2, gamma := 0,
    rewards := [5, 6, 7], dones := [0, 0, 0], KL_divergences := [0, 0, 0],
    values := [0, 0, 0], log_probs := [0, 0, 0], entropies := [0, 0, 0],
    advantages := none, _returns := none, len := 3 }

/-- C3 counterexample: the claim says `gamma = 0` with any
`n_steps ≥ 1` yields pure one-step returns from `update_advantages` in
n-step mode, but with `n_steps = 3` the default fast path runs
`compute_next_return`, which divides by `gamma = 0` (`buffer.py`
line 109).  On `zeroGammaBuffer` the stored returns are `[1, 0]` in the
model (numpy: `[1, nan]` plus a division warning), while the rewards at
those indices are `[1, 1]`: index 1 does not hold its reward. -/
theorem c3_counterexample :
    (update_advantages zeroGammaBuffer 0 true false).map RolloutBuffer._returns =
      some (some [1, 0]) ∧
    zeroGammaBuffer.rewards.getD 1 0 = 1 ∧ (0 : ℚ) ≠ 1 := by
  refine ⟨?_, by norm_num [zeroGammaBuffer], by norm_num⟩
  norm_num [update_advantages, zeroGammaBuffer, compute_returns, compute_n_step_return,
    compute_next_return, compute_advantages, List.range_succ]

/-- C3 amended: a buffer with `gamma = 0` is a valid configuration and
`update_advantages` in n-step mode succeeds and yields pure one-step
returns (`return[j] = rewards[j]` for every produced index `j`) whenever
the direct-summation path runs, i.e. when `n_steps ≤ 2` or `fast` is
false; the fast incremental path (`n_steps > 2` with `fast = True`)
instead divides by `gamma = 0`. -/
theorem c3_gamma_zero_direct (buf : RolloutBuffer) (last_val : ℚ) (fast : Bool)
    (hg : buf.gamma = 0) (hn : 1 ≤ buf.n_steps)
    (hfast : ¬ (2 < buf.n_steps ∧ fast = true))
    (hlen : buf.rewards.length = buf.buffer_size + buf.n_steps - 1)
    (hbs : 1 ≤ buf.buffer_size) :
    (update_advantages buf last_val fast false).map RolloutBuffer._returns =
      some (some ((List.range buf.buffer_size).map fun j => buf.rewards.getD j 0)) := by
  have hrets : compute_all_n_step_returns buf.rewards buf.gamma buf.buffer_size buf.n_steps
      = (List.range buf.buffer_size).map fun j => buf.rewards.getD j 0 := by
    unfold compute_all_n_step_returns
    apply List.map_congr_left
    intro j hj
    rw [List.mem_range] at hj
    have hjlen : j < buf.rewards.length := by omega
    obtain ⟨m, hm⟩ : ∃ m, buf.n_steps = m + 1 := ⟨buf.n_steps - 1, by omega⟩
    rw [hg, hm, List.drop_eq_getElem_cons hjlen, List.take_succ_cons,
      compute_n_step_return_cons, List.getD_eq_getElem _ _ hjlen]
    ring
  simp only [update_advantages, hrets, if_neg hfast]
  simp only [Bool.false_eq_true, if_false]
  unfold compute_advantages
  rw [if_pos (show 0 < buf.n_steps from hn)]
  rfl

/-- C3 witness: on `zeroGammaSlowBuffer` (`gamma = 0`, `n_steps = 2`)
the stored returns are exactly the rewards `[5, 6]` of the two produced
indices. -/
theorem c3_witness :
    (update_advantages zeroGammaSlowBuffer 0 true false).map RolloutBuffer._returns =
      some (some [5, 6]) :=
  (c3_gamma_zero_direct zeroGammaSlowBuffer 0 true rfl (by decide) (by decide)
      (by decide) (by decide)).trans
    (by norm_num [zeroGammaSlowBuffer, List.range_succ])

/-- Concrete buffer on which both modes of `update_advantages` succeed. -/
def frameBuffer : RolloutBuffer :=
  { setting := "MC", n_steps := 1, buffer_size := 1, gamma := 0,
    rewards := [2], dones := [0], KL_divergences := [3], values := [4],
    log_probs := [5], entropies := [6], advantages := none, _returns := none, len := 1 }

/-- Result of a successful n-step `update_advantages` on `frameBuffer`. -/
def frameBufferUpdated : RolloutBuffer :=
  { frameBuffer with _returns := some [2], advantages := some [-2] }

/-- Concrete buffer whose populated length `1` is shorter than its
`log_probs` column: Monte-Carlo mode truncates that column. -/
def mcTruncBuffer : RolloutBuffer :=
  { setting := "MC", n_steps := 1, buffer_size := 3, gamma := 0,
    rewards := [0, 0, 0], dones := [0, 0, 0], KL_divergences := [0, 0, 0],
    values := [0, 0, 0], log_probs := [5, 6, 7], entropies := [0, 0, 0],
    advantages := none, _returns := none, len := 1 }

/-- C6 counterexample: the claim says a successful `update_advantages`
in either mode leaves `log_probs` unchanged, but in Monte-Carlo mode the
source truncates it (`buffer.py` line 211:
`self.log_probs = self.log_probs[: self.__len__]`).  On `mcTruncBuffer`
the column shrinks from `[5, 6, 7]` to `[5]`. -/
theorem c6_counterexample :
    (update_advantages mcTruncBuffer 0 true true).map RolloutBuffer.log_probs =
      some [5] ∧
    ([5] : List ℚ) ≠ mcTruncBuffer.log_probs := by
  constructor
  · norm_num [update_advantages, mcTruncBuffer]
  · simp [mcTruncBuffer]

/-- C6 amended: a successful `update_advantages` modifies only the
internal `advantages` and `_returns` fields in n-step mode, leaving
every stored column and the cursor unchanged; in Monte-Carlo mode it
additionally truncates `log_probs` to the populated length, leaving the
other five columns and the cursor unchanged. -/
theorem c6_update_advantages_frame (buf : RolloutBuffer) (last_val : ℚ) (fast : Bool) :
    (∀ buf2, update_advantages buf last_val fast false = some buf2 →
      buf2.rewards = buf.rewards ∧ buf2.dones = buf.dones ∧ buf2.values = buf.values ∧
      buf2.log_probs = buf.log_probs ∧ buf2.entropies = buf.entropies ∧
      buf2.KL_divergences = buf.KL_divergences ∧ buf2.len = buf.len) ∧
    (∀ buf2, update_advantages buf last_val fast true = some buf2 →
      buf2.rewards = buf.rewards ∧ buf2.dones = buf.dones ∧ buf2.values = buf.values ∧
      buf2.log_probs = buf.log_probs.take buf.len ∧ buf2.entropies = buf.entropies ∧
      buf2.KL_divergences = buf.KL_divergences ∧ buf2.len = buf.len) := by
  constructor
  · intro buf2 h
    simp only [update_advantages, Bool.false_eq_true, if_false] at h
    split at h
    · obtain rfl := Option.some.inj h
      exact ⟨rfl, rfl, rfl, rfl, rfl, rfl, rfl⟩
    · exact absurd h (by simp)
  · intro buf2 h
    simp only [update_advantages, if_pos rfl] at h
    obtain rfl := Option.some.inj h
    exact ⟨rfl, rfl, rfl, rfl, rfl, rfl, rfl⟩

/-- C6 witness: the successful n-step update on `frameBuffer` keeps the
stored columns and the cursor. -/
theorem c6_witness :
    frameBufferUpdated.rewards = frameBuffer.rewards ∧
    frameBufferUpdated.log_probs = frameBuffer.log_probs ∧
    frameBufferUpdated.len = frameBuffer.len := by
  have h := (c6_update_advantages_frame frameBuffer 0 true).1 frameBufferUpdated
    (by norm_num [update_advantages, frameBuffer, frameBufferUpdated,
      compute_all_n_step_returns, compute_n_step_return, compute_advantages,
      List.range_succ])
  exact ⟨h.1, h.2.2.2.1, h.2.2.2.2.2.2⟩

/-- Concrete buffer (capacity 3, `buffer_size = 2`, `n_steps = 2`) used
to exhibit the trim behaviour. -/
def trimBuffer : RolloutBuffer :=
  { setting := "MC", n_steps := 2, buffer_size := 2, gamma := 0,
    rewards := [1, 2, 3], dones := [0, 0, 1], KL_divergences := [0, 0, 0],
    values := [0, 0, 0], log_probs := [0, 0, 0], entropies := [0, 0, 0],
    advantages := none, _returns := none, len := 3 }

/-- C5 counterexample: the claim says `clear()` leaves capacity-length,
mostly zeroed columns and a cursor of `n_steps - 1`, but the source
(`buffer.py` lines 243-250) merely slices every column to its last
`n_steps - 1 = 1` entries, zeroes nothing and never touches the cursor:
on `trimBuffer` the reward column shrinks to length `1` (capacity is
`3`), the surviving done flag stays `1` (not zeroed), and the cursor
stays `3` instead of `1`. -/
theorem c5_counterexample :
    (clear trimBuffer).rewards.length = 1 ∧ (1 : ℕ) ≠ 2 + 2 - 1 ∧
    (clear trimBuffer).dones = [1] ∧ ([1] : List ℚ) ≠ [0] ∧
    (clear trimBuffer).len = 3 ∧ (3 : ℕ) ≠ 2 - 1 := by
  refine ⟨by decide, by decide, by decide, ?_, by decide, by decide⟩
  decide

/-- C5 amended: for a buffer with capacity-length columns and
`n_steps ≥ 2`, `clean()` behaves as the claim states: it keeps the
previously last `n_steps - 1` rewards in the first `n_steps - 1` slots,
zeroes everything else, keeps every column at capacity
`buffer_size + n_steps - 1`, and resets the cursor to `n_steps - 1`.
`clear()` instead truncates every column to its last `n_steps - 1`
entries (so the preserved rewards do sit at the front, but the columns
no longer have capacity length), zeroes nothing, and leaves the cursor
unchanged. -/
theorem c5_clean_clear (buf : RolloutBuffer)
    (hn : 2 ≤ buf.n_steps)
    (hr : buf.rewards.length = buf.buffer_size + buf.n_steps - 1) :
    (∀ buf2, clean buf = some buf2 →
      buf2.rewards.take (buf.n_steps - 1) = buf.rewards.drop buf.buffer_size ∧
      buf2.rewards.drop (buf.n_steps - 1) = List.replicate buf.buffer_size 0 ∧
      buf2.rewards.length = buf.buffer_size + buf.n_steps - 1 ∧
      buf2.dones = List.replicate (buf.buffer_size + buf.n_steps - 1) 0 ∧
      buf2.values = List.replicate (buf.buffer_size + buf.n_steps - 1) 0 ∧
      buf2.log_probs = List.replicate (buf.buffer_size + buf.n_steps - 1) 0 ∧
      buf2.entropies = List.replicate (buf.buffer_size + buf.n_steps - 1) 0 ∧
      buf2.KL_divergences = List.replicate (buf.buffer_size + buf.n_steps - 1) 0 ∧
      buf2.len = buf.n_steps - 1) ∧
    ((clear buf).rewards = buf.rewards.drop buf.buffer_size ∧
      (clear buf).rewards.length = buf.n_steps - 1 ∧
      (clear buf).dones = buf.dones.drop buf.buffer_size ∧
      (clear buf).values = buf.values.drop buf.buffer_size ∧
      (clear buf).log_probs = buf.log_probs.drop buf.buffer_size ∧
      (clear buf).entropies = buf.entropies.drop buf.buffer_size ∧
      (clear buf).KL_divergences = buf.KL_divergences.drop buf.buffer_size ∧
      (clear buf).len = buf.len) := by
  have hbs : buf.rewards.length - (buf.n_steps - 1) = buf.buffer_size := by omega
  constructor
  · intro buf2 h
    unfold clean at h
    rw [if_neg (show ¬ buf.n_steps = 1 by omega)] at h
    have hold : (buf.rewards.drop (buf.rewards.length - (buf.n_steps - 1))).length =
        buf.n_steps - 1 := by
      rw [List.length_drop]; omega
    rw [if_pos hold] at h
    obtain rfl := Option.some.inj h
    have hcap : buf.buffer_size + buf.n_steps - 1 - (buf.n_steps - 1) = buf.buffer_size := by
      omega
    refine ⟨?_, ?_, ?_, rfl, rfl, rfl, rfl, rfl, rfl⟩
    · show (buf.rewards.drop (buf.rewards.length - (buf.n_steps - 1)) ++
        List.replicate (buf.buffer_size + buf.n_steps - 1 - (buf.n_steps - 1)) (0 : ℚ)).take
          (buf.n_steps - 1) = buf.rewards.drop buf.buffer_size
      rw [List.take_left' hold, hbs]
    · show (buf.rewards.drop (buf.rewards.length - (buf.n_steps - 1)) ++
        List.replicate (buf.buffer_size + buf.n_steps - 1 - (buf.n_steps - 1)) (0 : ℚ)).drop
          (buf.n_steps - 1) = List.replicate buf.buffer_size (0 : ℚ)
      rw [List.drop_left' hold, hcap]
    · show (buf.rewards.drop (buf.rewards.length - (buf.n_steps - 1)) ++
        List.replicate (buf.buffer_size + buf.n_steps - 1 - (buf.n_steps - 1)) (0 : ℚ)).length =
          buf.buffer_size + buf.n_steps - 1
      rw [List.length_append, hold, List.length_replicate]
      omega
  · refine ⟨rfl, ?_, rfl, rfl, rfl, rfl, rfl, rfl⟩
    show (buf.rewards.drop buf.buffer_size).length = buf.n_steps - 1
    rw [List.length_drop]
    omega

/-- C5 witness: on `trimBuffer`, `clean` keeps the last reward `3` as
seed and zeroes the rest at full capacity, while `clear` keeps the same
seed but truncates the column. -/
theorem c5_witness :
    (∀ buf2, clean trimBuffer = some buf2 →
      buf2.rewards.take 1 = trimBuffer.rewards.drop 2) ∧
    (clear trimBuffer).rewards = trimBuffer.rewards.drop trimBuffer.buffer_size ∧
    (clear trimBuffer).rewards.length = trimBuffer.n_steps - 1 := by
  have h := c5_clean_clear trimBuffer (by decide) (by decide)
  exact ⟨fun buf2 hb => (h.1 buf2 hb).1, h.2.1, h.2.2.1⟩

end RolloutBuffer
